import Mathlib

/-!
Verification of the SwipeHire application queue and Ashby form-filling engine.

The definitions below are a shallow embedding of the TypeScript sources:
* `src/lib/applicationQueue.ts` — the persisted application queue and its API;
* `SwipeDeck.tsx` (`processQueue`, `enqueueJobForApplication`) — the queue driver;
* `JobDashboard.tsx` (`handleRetry`, `handleRemove`) — manual retry/removal;
* `src/scripts/applyAshby.ts` — the submission loop, checkbox/answer heuristics
  and the corrective-retry sweep.

Effectful browser interaction is modelled by explicit event traces or by
function parameters standing for the environment (validation-error results,
oracle outcomes); all data-level logic is translated directly from the source.
-/

namespace SwipeHire

/-- The four statuses of `ApplicationStatus` in applicationQueue.ts. -/
inductive ApplicationStatus where
  | queued
  | applying
  | applied
  | failed
deriving DecidableEq, Repr

/-- An `ApplicationRecord` from applicationQueue.ts.  The `job` and `profile`
payloads are opaque to every queue operation, so they are modelled as plain
strings. -/
structure ApplicationRecord where
  jobId : String
  job : String
  profile : String
  status : ApplicationStatus
  updatedAt : String
  error : Option String
  appliedAt : Option String
deriving DecidableEq, Repr

/-- A `Partial<ApplicationRecord>` as passed to `updateApplicationRecord` by
its call sites (`processQueue`, `handleRetry`); those call sites never update
`jobId`, `job` or `profile`.  `error := some none` models an explicit
`error: undefined`, clearing the field; `none` models an absent key. -/
structure RecordUpdates where
  status : Option ApplicationStatus
  updatedAt : Option String
  error : Option (Option String)
  appliedAt : Option String
deriving DecidableEq, Repr

/-- Spread semantics of `{ ...queue[idx], ...updates }`. -/
def applyUpdates (r : ApplicationRecord) (u : RecordUpdates) : ApplicationRecord :=
  { r with
    status := u.status.getD r.status
    updatedAt := u.updatedAt.getD r.updatedAt
    error := u.error.getD r.error
    appliedAt := match u.appliedAt with
      | some t => some t
      | none => r.appliedAt }

/-- `enqueueApplication` (applicationQueue.ts lines 160-165): drop any record
with the same `jobId`, then push the new record at the end. -/
def enqueueApplication (queue : List ApplicationRecord) (record : ApplicationRecord) :
    List ApplicationRecord :=
  queue.filter (fun item => item.jobId != record.jobId) ++ [record]

/-- `updateApplicationRecord` (applicationQueue.ts lines 167-182): update the
first record whose `jobId` matches; leave the queue unchanged when no record
matches (`findIndex` returns -1). -/
def updateApplicationRecord : List ApplicationRecord → String → RecordUpdates →
    List ApplicationRecord
  | [], _, _ => []
  | item :: rest, jobId, u =>
    if item.jobId = jobId then applyUpdates item u :: rest
    else item :: updateApplicationRecord rest jobId u

/-- `removeApplication` (applicationQueue.ts lines 184-187). -/
def removeApplication (queue : List ApplicationRecord) (jobId : String) :
    List ApplicationRecord :=
  queue.filter (fun item => item.jobId != jobId)

/-- The eligibility test of `getNextQueuedApplication`:
`item.status === 'queued' || item.status === 'failed'`. -/
def isEligibleForProcessing (r : ApplicationRecord) : Bool :=
  r.status == .queued || r.status == .failed

/-- `getNextQueuedApplication` (applicationQueue.ts lines 189-192): first
record in collection order whose status is `queued` or `failed`. -/
def getNextQueuedApplication (queue : List ApplicationRecord) :
    Option ApplicationRecord :=
  queue.find? isEligibleForProcessing

/-- Status of the record stored under a given `jobId`, if any. -/
def statusOf (queue : List ApplicationRecord) (jobId : String) :
    Option ApplicationStatus :=
  (queue.find? (fun r => r.jobId == jobId)).map (fun r => r.status)

/-! Basic lemmas about the queue operations. -/

theorem applyUpdates_jobId (r : ApplicationRecord) (u : RecordUpdates) :
    (applyUpdates r u).jobId = r.jobId := rfl

theorem update_map_jobId (q : List ApplicationRecord) (j : String) (u : RecordUpdates) :
    (updateApplicationRecord q j u).map (fun r => r.jobId) = q.map (fun r => r.jobId) := by
  induction q with
  | nil => rfl
  | cons a rest ih =>
    by_cases h : a.jobId = j
    · simp [updateApplicationRecord, h, applyUpdates_jobId]
    · simp [updateApplicationRecord, h, ih]

theorem mem_update {q : List ApplicationRecord} {j : String} {u : RecordUpdates}
    {r' : ApplicationRecord} (h : r' ∈ updateApplicationRecord q j u) :
    r' ∈ q ∨ ∃ r, r ∈ q ∧ r.jobId = j ∧ r' = applyUpdates r u := by
  induction q with
  | nil => simp [updateApplicationRecord] at h
  | cons a rest ih =>
    by_cases ha : a.jobId = j
    · simp only [updateApplicationRecord, if_pos ha] at h
      rcases List.mem_cons.mp h with h1 | h1
      · exact Or.inr ⟨a, List.mem_cons_self a rest, ha, h1⟩
      · exact Or.inl (List.mem_cons_of_mem a h1)
    · simp only [updateApplicationRecord, if_neg ha] at h
      rcases List.mem_cons.mp h with h1 | h1
      · exact Or.inl (h1 ▸ List.mem_cons_self a rest)
      · rcases ih h1 with h2 | ⟨r, hr, hrj, hre⟩
        · exact Or.inl (List.mem_cons_of_mem a h2)
        · exact Or.inr ⟨r, List.mem_cons_of_mem a hr, hrj, hre⟩

theorem mem_update_of_ne {q : List ApplicationRecord} {j : String} {u : RecordUpdates}
    {r : ApplicationRecord} (h : r ∈ q) (hne : r.jobId ≠ j) :
    r ∈ updateApplicationRecord q j u := by
  induction q with
  | nil => simp at h
  | cons a rest ih =>
    by_cases ha : a.jobId = j
    · rcases List.mem_cons.mp h with h1 | h1
      · exact absurd (h1 ▸ ha) hne
      · simp only [updateApplicationRecord, if_pos ha]
        exact List.mem_cons_of_mem _ h1
    · rcases List.mem_cons.mp h with h1 | h1
      · simp only [updateApplicationRecord, if_neg ha]
        exact h1 ▸ List.mem_cons_self a _
      · simp only [updateApplicationRecord, if_neg ha]
        exact List.mem_cons_of_mem _ (ih h1)

theorem exists_updated {q : List ApplicationRecord} {j : String}
    (u : RecordUpdates) (h : ∃ r, r ∈ q ∧ r.jobId = j) :
    ∃ r₀, r₀ ∈ q ∧ r₀.jobId = j ∧ applyUpdates r₀ u ∈ updateApplicationRecord q j u := by
  induction q with
  | nil => simp at h
  | cons a rest ih =>
    by_cases ha : a.jobId = j
    · refine ⟨a, List.mem_cons_self a rest, ha, ?_⟩
      simp [updateApplicationRecord, if_pos ha]
    · rcases h with ⟨r, hr, hrj⟩
      rcases List.mem_cons.mp hr with h1 | h1
      · exact absurd (h1 ▸ hrj) ha
      · rcases ih ⟨r, h1, hrj⟩ with ⟨r₀, hr₀, hr₀j, hmem⟩
        refine ⟨r₀, List.mem_cons_of_mem a hr₀, hr₀j, ?_⟩
        simp only [updateApplicationRecord, if_neg ha]
        exact List.mem_cons_of_mem _ hmem

theorem nodup_key_inj {α β : Type} [DecidableEq β] {f : α → β} {q : List α}
    (hN : (q.map f).Nodup) {a b : α} (ha : a ∈ q) (hb : b ∈ q) (hf : f a = f b) :
    a = b := by
  induction q with
  | nil => simp at ha
  | cons x rest ih =>
    simp only [List.map_cons, List.nodup_cons] at hN
    rcases List.mem_cons.mp ha with ha1 | ha1 <;> rcases List.mem_cons.mp hb with hb1 | hb1
    · exact ha1.trans hb1.symm
    · exfalso
      apply hN.1
      rw [← ha1, hf]
      exact List.mem_map_of_mem f hb1
    · exfalso
      apply hN.1
      rw [← hb1, ← hf]
      exact List.mem_map_of_mem f ha1
    · exact ih hN.2 ha1 hb1

theorem statusOf_update_ne {q : List ApplicationRecord} {j j' : String}
    (u : RecordUpdates) (hne : j' ≠ j) :
    statusOf (updateApplicationRecord q j u) j' = statusOf q j' := by
  induction q with
  | nil => rfl
  | cons a rest ih =>
    by_cases ha : a.jobId = j
    · have haj : (a.jobId == j') = false := by
        rw [ha]
        simp
        exact fun h => hne h.symm
      rw [updateApplicationRecord, if_pos ha]
      have haj' : ((applyUpdates a u).jobId == j') = false := by
        rw [applyUpdates_jobId]; exact haj
      simp only [statusOf, List.find?, haj, haj']
    · rw [updateApplicationRecord, if_neg ha]
      by_cases ha' : a.jobId = j'
      · have hb : (a.jobId == j') = true := by simp [ha']
        simp only [statusOf, List.find?, hb]
      · have hb : (a.jobId == j') = false := by simp [ha']
        simp only [statusOf, List.find?, hb]
        exact ih

theorem statusOf_update_self {q : List ApplicationRecord} {j : String}
    {a : ApplicationStatus} (u : RecordUpdates) (h : statusOf q j = some a) :
    statusOf (updateApplicationRecord q j u) j = some (u.status.getD a) := by
  induction q with
  | nil => simp [statusOf] at h
  | cons x rest ih =>
    by_cases hx : x.jobId = j
    · have hb : (x.jobId == j) = true := by simp [hx]
      simp only [statusOf, List.find?, hb, Option.map_some'] at h
      simp only [updateApplicationRecord, if_pos hx, statusOf, List.find?,
        applyUpdates_jobId, hb, Option.map_some']
      simp [applyUpdates, ← Option.some_inj.mp h]
    · have hb : (x.jobId == j) = false := by simp [hx]
      simp only [statusOf, List.find?, hb] at h
      simp only [updateApplicationRecord, if_neg hx, statusOf, List.find?, hb]
      exact ih h

theorem statusOf_eq_of_mem_nodup {q : List ApplicationRecord}
    (hN : (q.map (fun r => r.jobId)).Nodup) {r : ApplicationRecord} (hr : r ∈ q) :
    statusOf q r.jobId = some r.status := by
  induction q with
  | nil => simp at hr
  | cons x rest ih =>
    simp only [List.map_cons, List.nodup_cons] at hN
    rcases List.mem_cons.mp hr with h1 | h1
    · have : (x.jobId == r.jobId) = true := by simp [h1]
      simp [statusOf, List.find?, this, h1]
    · have hxr : x.jobId ≠ r.jobId := by
        intro hcon
        exact hN.1 (hcon ▸ List.mem_map_of_mem (fun r => r.jobId) h1)
      have : (x.jobId == r.jobId) = false := by simp [hxr]
      simpa [statusOf, List.find?, this] using ih hN.2 h1

theorem find?_append_of_some {α : Type} {p : α → Bool} {l₁ : List α} {x : α}
    (l₂ : List α) (h : l₁.find? p = some x) : (l₁ ++ l₂).find? p = some x := by
  induction l₁ with
  | nil => simp [List.find?] at h
  | cons a rest ih =>
    by_cases hp : p a
    · simp [List.find?, hp] at h ⊢
      exact h
    · simp only [eq_false_of_ne_true hp, List.cons_append, List.find?_cons_of_neg,
        Bool.not_eq_true] at h ⊢
      exact ih h

/-! The queue driver of SwipeDeck.tsx.  `processQueue` is an async callback:
its synchronous prefix (the gate check, picking the next record and marking it
`applying`) and its continuation after `submitApplicationRecord` settles (the
`applied`/`failed` update plus the `finally` block) are modelled as separate
small steps on a `QueueState`, so that the intermediate in-flight states are
observable.  `processingRef.current` is the `processing` flag; the `jobId` of
the captured `next` record is `inflight`. -/

structure QueueState where
  queue : List ApplicationRecord
  processing : Bool
  inflight : Option String
deriving DecidableEq, Repr

/-- The synchronous prefix of `processQueue` (SwipeDeck.tsx lines 154-166):
`if ((!force && !autoSubmit) || processingRef.current) return;` then pick the
next queued-or-failed record, set the flag and mark the record `applying`
(with `updatedAt := startTime` and `error: undefined`). -/
def processQueueBegin (force autoSubmit : Bool) (startTime : String)
    (s : QueueState) : QueueState :=
  if (!force && !autoSubmit) || s.processing then s
  else
    match getNextQueuedApplication s.queue with
    | none => s
    | some next =>
      { queue := updateApplicationRecord s.queue next.jobId
          ({ status := some .applying, updatedAt := some startTime,
             error := some none, appliedAt := none })
        processing := true
        inflight := some next.jobId }

/-- The success continuation of `processQueue` (lines 170-180): mark the
in-flight record `applied` with `appliedAt = updatedAt = successTime` and
`error: undefined`; the `finally` block clears the processing flag. -/
def processQueueFinishSuccess (successTime : String) (s : QueueState) : QueueState :=
  match s.inflight with
  | none => s
  | some j =>
    { queue := updateApplicationRecord s.queue j
        ({ status := some .applied, updatedAt := some successTime,
           error := some none, appliedAt := some successTime })
      processing := false
      inflight := none }

/-- The catch continuation of `processQueue` (lines 181-191): mark the
in-flight record `failed` with the error message; the `finally` block clears
the processing flag. -/
def processQueueFinishFailure (failTime message : String) (s : QueueState) : QueueState :=
  match s.inflight with
  | none => s
  | some j =>
    { queue := updateApplicationRecord s.queue j
        ({ status := some .failed, updatedAt := some failTime,
           error := some (some message), appliedAt := none })
      processing := false
      inflight := none }

/-- `handleRetry` of JobDashboard.tsx (lines 63-70): re-queue a record with
`error: undefined`.  The dashboard renders the Retry button only on records
whose status is `failed`. -/
def handleRetry (t jobId : String) (s : QueueState) : QueueState :=
  { s with
    queue := updateApplicationRecord s.queue jobId
        ({ status := some .queued, updatedAt := some t,
           error := some none, appliedAt := none }) }

/-- One step of the system: the queue operations exactly as their call sites
invoke them.  Guards record the call-site conditions: `enqueueJobForApplication`
always builds its record with `status: 'queued'` and a job still in the swipe
deck (hence not the in-flight one, which was removed from the deck when it was
queued); `handleRetry` fires only from the Retry button on a `failed` record;
`handleRemove` fires only from the Remove button on an `applied` or `failed`
record. -/
inductive QueueStep : QueueState → QueueState → Prop where
  | enqueue (s : QueueState) (r : ApplicationRecord)
      (hq : r.status = .queued)
      (hn : s.inflight ≠ some r.jobId) :
      QueueStep s ⟨enqueueApplication s.queue r, s.processing, s.inflight⟩
  | beginStep (s : QueueState) (force autoSubmit : Bool) (t : String) :
      QueueStep s (processQueueBegin force autoSubmit t s)
  | finishSuccess (s : QueueState) (t : String) :
      QueueStep s (processQueueFinishSuccess t s)
  | finishFailure (s : QueueState) (t msg : String) :
      QueueStep s (processQueueFinishFailure t msg s)
  | retryStep (s : QueueState) (t jobId : String)
      (hf : statusOf s.queue jobId = some .failed) :
      QueueStep s (handleRetry t jobId s)
  | removeStep (s : QueueState) (jobId : String)
      (hterm : ∀ r ∈ s.queue, r.jobId = jobId →
        r.status = .applied ∨ r.status = .failed) :
      QueueStep s ⟨removeApplication s.queue jobId, s.processing, s.inflight⟩

/-- States reachable from the empty queue with no attempt in flight. -/
inductive Reachable : QueueState → Prop where
  | init : Reachable ⟨[], false, none⟩
  | step {s s' : QueueState} : Reachable s → QueueStep s s' → Reachable s'

/-- The inductive invariant of the queue driver: job ids are unique, every
`applying` record is the in-flight one, and the processing flag, the in-flight
id and the one `applying` record exist together or not at all. -/
structure QueueInv (s : QueueState) : Prop where
  nodup : (s.queue.map (fun r => r.jobId)).Nodup
  applying_inflight : ∀ r ∈ s.queue, r.status = .applying → s.inflight = some r.jobId
  idle : s.inflight = none → s.processing = false ∧ ∀ r ∈ s.queue, r.status ≠ .applying
  busy : ∀ j, s.inflight = some j → s.processing = true ∧
    ∃ r ∈ s.queue, r.jobId = j ∧ r.status = .applying

theorem enqueue_map_nodup {q : List ApplicationRecord}
    (hN : (q.map (fun r => r.jobId)).Nodup) (r : ApplicationRecord) :
    ((enqueueApplication q r).map (fun x => x.jobId)).Nodup := by
  unfold enqueueApplication
  rw [List.map_append, List.nodup_append]
  refine ⟨?_, by simp, ?_⟩
  · exact hN.sublist ((List.filter_sublist q).map (fun x => x.jobId))
  · intro x hx
    simp only [List.mem_map] at hx
    rcases hx with ⟨rr, hrr, hrx⟩
    have := (List.mem_filter.mp hrr).2
    simp only [bne_iff_ne, ne_eq] at this
    simp only [List.map_cons, List.map_nil, List.mem_singleton]
    rw [← hrx]
    exact this

theorem no_applying_after_terminal {q : List ApplicationRecord} {j : String}
    (u : RecordUpdates) (st : ApplicationStatus)
    (hN : (q.map (fun r => r.jobId)).Nodup)
    (hall : ∀ r ∈ q, r.status = .applying → r.jobId = j)
    (hst : u.status = some st) (hne : st ≠ .applying) :
    ∀ r' ∈ updateApplicationRecord q j u, r'.status ≠ .applying := by
  induction q with
  | nil => simp [updateApplicationRecord]
  | cons a rest ih =>
    simp only [List.map_cons, List.nodup_cons] at hN
    by_cases ha : a.jobId = j
    · rw [updateApplicationRecord, if_pos ha]
      intro r' hr'
      rcases List.mem_cons.mp hr' with h1 | h1
      · rw [h1]
        simp [applyUpdates, hst]
        exact hne
      · intro hcon
        have hrj : r'.jobId = j := hall r' (List.mem_cons_of_mem a h1) hcon
        apply hN.1
        rw [ha, ← hrj]
        exact List.mem_map_of_mem _ h1
    · rw [updateApplicationRecord, if_neg ha]
      intro r' hr'
      rcases List.mem_cons.mp hr' with h1 | h1
      · intro hcon
        exact ha (hall a (List.mem_cons_self a rest) (h1 ▸ hcon))
      · exact ih hN.2 (fun r hr hs => hall r (List.mem_cons_of_mem a hr) hs) r' h1

theorem queueInv_enqueue {s : QueueState} (hI : QueueInv s) (r : ApplicationRecord)
    (hq : r.status = .queued) (hn : s.inflight ≠ some r.jobId) :
    QueueInv ⟨enqueueApplication s.queue r, s.processing, s.inflight⟩ := by
  constructor
  · exact enqueue_map_nodup hI.nodup r
  · intro r' hr' hst
    rcases List.mem_append.mp hr' with h1 | h1
    · exact hI.applying_inflight r' (List.mem_filter.mp h1).1 hst
    · rw [List.mem_singleton.mp h1, hq] at hst
      cases hst
  · intro hin
    refine ⟨(hI.idle hin).1, ?_⟩
    intro r' hr' hst
    rcases List.mem_append.mp hr' with h1 | h1
    · exact (hI.idle hin).2 r' (List.mem_filter.mp h1).1 hst
    · rw [List.mem_singleton.mp h1, hq] at hst
      cases hst
  · intro j hj
    refine ⟨(hI.busy j hj).1, ?_⟩
    rcases (hI.busy j hj).2 with ⟨r₀, hr₀, hr₀j, hr₀s⟩
    refine ⟨r₀, ?_, hr₀j, hr₀s⟩
    apply List.mem_append_left
    apply List.mem_filter.mpr
    refine ⟨hr₀, ?_⟩
    simp only [bne_iff_ne, ne_eq]
    intro hcon
    exact hn (by rw [hj, ← hr₀j, hcon])

theorem queueInv_begin {s : QueueState} (hI : QueueInv s)
    (force autoSubmit : Bool) (t : String) :
    QueueInv (processQueueBegin force autoSubmit t s) := by
  unfold processQueueBegin
  by_cases hgate : ((!force && !autoSubmit) || s.processing) = true
  · rw [if_pos hgate]
    exact hI
  · rw [if_neg hgate]
    have hproc : s.processing = false := by
      revert hgate
      cases s.processing <;> simp
    have hin : s.inflight = none := by
      cases hfl : s.inflight with
      | none => rfl
      | some j =>
        have := (hI.busy j hfl).1
        rw [hproc] at this
        cases this
    have hnoapp : ∀ r ∈ s.queue, r.status ≠ .applying := (hI.idle hin).2
    cases hnext : getNextQueuedApplication s.queue with
    | none => exact hI
    | some next =>
      have hnmem : next ∈ s.queue := by
        unfold getNextQueuedApplication at hnext
        exact List.mem_of_find?_eq_some hnext
      constructor
      · rw [update_map_jobId]
        exact hI.nodup
      · intro r' hr' hst
        rcases mem_update hr' with h1 | ⟨r, hr, hrj, hre⟩
        · exact absurd hst (hnoapp r' h1)
        · show some next.jobId = some r'.jobId
          rw [hre, applyUpdates_jobId, hrj]
      · intro hcon
        cases hcon
      · intro j hj
        have hjj : next.jobId = j := Option.some_inj.mp hj
        refine ⟨rfl, ?_⟩
        rcases exists_updated
            ({ status := some .applying, updatedAt := some t,
               error := some none, appliedAt := none }) ⟨next, hnmem, rfl⟩ with
          ⟨r₀, hr₀, hr₀j, hmem⟩
        refine ⟨applyUpdates r₀ _, hmem, ?_, ?_⟩
        · rw [applyUpdates_jobId, hr₀j, hjj]
        · rfl

theorem queueInv_finishSuccess {s : QueueState} (hI : QueueInv s) (t : String) :
    QueueInv (processQueueFinishSuccess t s) := by
  unfold processQueueFinishSuccess
  cases hfl : s.inflight with
  | none => exact hI
  | some j =>
    have hall : ∀ r ∈ s.queue, r.status = .applying → r.jobId = j := by
      intro r hr hs
      have h2 := hI.applying_inflight r hr hs
      rw [hfl] at h2
      exact (Option.some_inj.mp h2).symm
    have hnoapp := no_applying_after_terminal
      ({ status := some .applied, updatedAt := some t,
         error := some none, appliedAt := some t }) .applied hI.nodup hall rfl
      (by intro hcon; cases hcon)
    constructor
    · rw [update_map_jobId]
      exact hI.nodup
    · intro r' hr' hst
      exact absurd hst (hnoapp r' hr')
    · intro _
      exact ⟨rfl, hnoapp⟩
    · intro j' hj'
      cases hj'

theorem queueInv_finishFailure {s : QueueState} (hI : QueueInv s) (t msg : String) :
    QueueInv (processQueueFinishFailure t msg s) := by
  unfold processQueueFinishFailure
  cases hfl : s.inflight with
  | none => exact hI
  | some j =>
    have hall : ∀ r ∈ s.queue, r.status = .applying → r.jobId = j := by
      intro r hr hs
      have h2 := hI.applying_inflight r hr hs
      rw [hfl] at h2
      exact (Option.some_inj.mp h2).symm
    have hnoapp := no_applying_after_terminal
      ({ status := some .failed, updatedAt := some t,
         error := some (some msg), appliedAt := none }) .failed hI.nodup hall rfl
      (by intro hcon; cases hcon)
    constructor
    · rw [update_map_jobId]
      exact hI.nodup
    · intro r' hr' hst
      exact absurd hst (hnoapp r' hr')
    · intro _
      exact ⟨rfl, hnoapp⟩
    · intro j' hj'
      cases hj'

theorem queueInv_retry {s : QueueState} (hI : QueueInv s) (t jobId : String)
    (hf : statusOf s.queue jobId = some .failed) :
    QueueInv (handleRetry t jobId s) := by
  unfold handleRetry
  constructor
  · rw [update_map_jobId]
    exact hI.nodup
  · intro r' hr' hst
    rcases mem_update hr' with h1 | ⟨r, hr, hrj, hre⟩
    · exact hI.applying_inflight r' h1 hst
    · rw [hre] at hst
      cases hst
  · intro hin
    refine ⟨(hI.idle hin).1, ?_⟩
    intro r' hr' hst
    rcases mem_update hr' with h1 | ⟨r, hr, hrj, hre⟩
    · exact (hI.idle hin).2 r' h1 hst
    · rw [hre] at hst
      cases hst
  · intro j hj
    refine ⟨(hI.busy j hj).1, ?_⟩
    rcases (hI.busy j hj).2 with ⟨r₀, hr₀, hr₀j, hr₀s⟩
    refine ⟨r₀, ?_, hr₀j, hr₀s⟩
    apply mem_update_of_ne hr₀
    intro hcon
    have h2 := statusOf_eq_of_mem_nodup hI.nodup hr₀
    rw [hcon, hf, hr₀s] at h2
    cases h2

theorem queueInv_remove {s : QueueState} (hI : QueueInv s) (jobId : String)
    (hterm : ∀ r ∈ s.queue, r.jobId = jobId →
      r.status = .applied ∨ r.status = .failed) :
    QueueInv ⟨removeApplication s.queue jobId, s.processing, s.inflight⟩ := by
  constructor
  · exact hI.nodup.sublist ((List.filter_sublist _).map _)
  · intro r' hr' hst
    exact hI.applying_inflight r' (List.mem_filter.mp hr').1 hst
  · intro hin
    exact ⟨(hI.idle hin).1,
      fun r' hr' => (hI.idle hin).2 r' (List.mem_filter.mp hr').1⟩
  · intro j hj
    refine ⟨(hI.busy j hj).1, ?_⟩
    rcases (hI.busy j hj).2 with ⟨r₀, hr₀, hr₀j, hr₀s⟩
    refine ⟨r₀, List.mem_filter.mpr ⟨hr₀, ?_⟩, hr₀j, hr₀s⟩
    simp only [bne_iff_ne, ne_eq]
    intro hcon
    rcases hterm r₀ hr₀ hcon with h | h <;> rw [hr₀s] at h <;> cases h

theorem queueInv_step {s s' : QueueState} (hI : QueueInv s) (hstep : QueueStep s s') :
    QueueInv s' := by
  cases hstep with
  | enqueue r hq hn => exact queueInv_enqueue hI r hq hn
  | beginStep force autoSubmit t => exact queueInv_begin hI force autoSubmit t
  | finishSuccess t => exact queueInv_finishSuccess hI t
  | finishFailure t msg => exact queueInv_finishFailure hI t msg
  | retryStep t jobId hf => exact queueInv_retry hI t jobId hf
  | removeStep jobId hterm => exact queueInv_remove hI jobId hterm

theorem reachable_inv {s : QueueState} (h : Reachable s) : QueueInv s := by
  induction h with
  | init => exact ⟨by simp, by simp, fun _ => ⟨rfl, by simp⟩, fun j hj => by cases hj⟩
  | step _ hstep ih => exact queueInv_step ih hstep

/-- Number of records currently in status `applying`. -/
def applyingCount (queue : List ApplicationRecord) : Nat :=
  queue.countP (fun r => r.status == .applying)

theorem countP_applying_le_one {q : List ApplicationRecord} {j : String}
    (hN : (q.map (fun r => r.jobId)).Nodup)
    (hall : ∀ r ∈ q, r.status = .applying → r.jobId = j) :
    q.countP (fun r => r.status == .applying) ≤ 1 := by
  induction q with
  | nil => simp
  | cons a rest ih =>
    simp only [List.map_cons, List.nodup_cons] at hN
    by_cases hs : a.status = .applying
    · rw [List.countP_cons_of_pos _ _ (by simp [hs])]
      have h0 : rest.countP (fun r => r.status == .applying) = 0 := by
        apply List.countP_eq_zero.mpr
        intro r hr hcon
        apply hN.1
        have hrj : r.jobId = j :=
          hall r (List.mem_cons_of_mem a hr) (by simpa using hcon)
        have haj : a.jobId = j := hall a (List.mem_cons_self a rest) hs
        rw [haj, ← hrj]
        exact List.mem_map_of_mem _ hr
      omega
    · rw [List.countP_cons_of_neg _ _ (by simp [hs])]
      exact ih hN.2 (fun r hr h => hall r (List.mem_cons_of_mem a hr) h)

/-- The status edges asserted by the claim (spec sections 4.4 and 8). -/
def specStatusEdges : List (ApplicationStatus × ApplicationStatus) :=
  [(.queued, .applying), (.applying, .applied), (.applying, .failed),
   (.failed, .queued)]

/-- The status edges the implementation actually performs in place:
`processQueue` picks the first `queued` or `failed` record and moves it
directly to `applying`, so the `failed → applying` edge is also taken. -/
def amendedStatusEdges : List (ApplicationStatus × ApplicationStatus) :=
  [(.queued, .applying), (.failed, .applying), (.applying, .applied),
   (.applying, .failed), (.failed, .queued)]

/-- A queued record used to build concrete reachable states. -/
def rec0 : ApplicationRecord :=
  { jobId := "job-1", job := "Acme Engineer", profile := "profile-1",
    status := .queued, updatedAt := "t0", error := none, appliedAt := none }

/-- A reachable state holding one `failed` record: enqueue `rec0`, start
processing it, and let the attempt fail. -/
def failedState : QueueState :=
  processQueueFinishFailure "t2" "boom"
    (processQueueBegin true true "t1" ⟨enqueueApplication [] rec0, false, none⟩)

theorem failedState_reachable : Reachable failedState :=
  Reachable.step
    (Reachable.step
      (Reachable.step Reachable.init
        (QueueStep.enqueue ⟨[], false, none⟩ rec0 rfl (by simp)))
      (QueueStep.beginStep _ true true "t1"))
    (QueueStep.finishFailure _ "t2" "boom")

/-- C1, counterexample: from the reachable state `failedState`, whose single
record has status `failed`, one `processQueue` step moves that record straight
to `applying` — a `failed → applying` transition, which is not one of the four
edges asserted by the claim. -/
theorem claimC1_counterexample :
    Reachable failedState ∧
    statusOf failedState.queue "job-1" = some .failed ∧
    statusOf (processQueueBegin true true "t3" failedState).queue "job-1"
      = some .applying ∧
    (ApplicationStatus.failed, ApplicationStatus.applying) ∉ specStatusEdges := by
  refine ⟨failedState_reachable, by decide, by decide, by decide⟩

/-- The amended transition property: every in-place status change made by a
`processQueue` step or a dashboard retry lies in `amendedStatusEdges` (in
particular `applied` and `failed` are only ever entered from `applying`), and
enqueueing stores the record with status `queued`. -/
def AmendedTransitionProperty (s : QueueState) : Prop :=
  (∀ force autoSubmit t j a b,
    statusOf s.queue j = some a →
    statusOf (processQueueBegin force autoSubmit t s).queue j = some b →
    a ≠ b → (a, b) ∈ amendedStatusEdges) ∧
  (∀ t j a b,
    statusOf s.queue j = some a →
    statusOf (processQueueFinishSuccess t s).queue j = some b →
    a ≠ b → (a, b) ∈ amendedStatusEdges) ∧
  (∀ t msg j a b,
    statusOf s.queue j = some a →
    statusOf (processQueueFinishFailure t msg s).queue j = some b →
    a ≠ b → (a, b) ∈ amendedStatusEdges) ∧
  (∀ t jobId j a b,
    statusOf s.queue jobId = some .failed →
    statusOf s.queue j = some a →
    statusOf (handleRetry t jobId s).queue j = some b →
    a ≠ b → (a, b) ∈ amendedStatusEdges) ∧
  (∀ r : ApplicationRecord, r.status = .queued →
    statusOf (enqueueApplication s.queue r) r.jobId = some .queued)

theorem find?_append_of_none {α : Type} {p : α → Bool} {l₁ : List α}
    (l₂ : List α) (h : l₁.find? p = none) :
    (l₁ ++ l₂).find? p = l₂.find? p := by
  induction l₁ with
  | nil => rfl
  | cons a rest ih =>
    have hpa : p a = false := by
      by_cases hp : p a = true
      · rw [List.find?_cons_of_pos _ hp] at h
        cases h
      · exact eq_false_of_ne_true hp
    rw [List.find?_cons_of_neg _ (by simp [hpa])] at h
    rw [List.cons_append, List.find?_cons_of_neg _ (by simp [hpa])]
    exact ih h

/-- C1, amended: proof of `AmendedTransitionProperty` at every reachable
state. -/
theorem claimC1_amended (s : QueueState) (h : Reachable s) :
    AmendedTransitionProperty s := by
  have hI := reachable_inv h
  refine ⟨?_, ?_, ?_, ?_, ?_⟩
  · -- processQueueBegin
    intro force autoSubmit t j a b hA hB hne
    unfold processQueueBegin at hB
    by_cases hgate : ((!force && !autoSubmit) || s.processing) = true
    · rw [if_pos hgate] at hB
      exact absurd (Option.some_inj.mp (hA.symm.trans hB)) hne
    · rw [if_neg hgate] at hB
      cases hnext : getNextQueuedApplication s.queue with
      | none =>
        rw [hnext] at hB
        exact absurd (Option.some_inj.mp (hA.symm.trans hB)) hne
      | some next =>
        rw [hnext] at hB
        by_cases hj : j = next.jobId
        · have hnmem : next ∈ s.queue := by
            unfold getNextQueuedApplication at hnext
            exact List.mem_of_find?_eq_some hnext
          have helig : isEligibleForProcessing next = true := by
            unfold getNextQueuedApplication at hnext
            exact List.find?_some hnext
          have hA' : statusOf s.queue next.jobId = some next.status :=
            statusOf_eq_of_mem_nodup hI.nodup hnmem
          rw [hj] at hA
          have ha : a = next.status := Option.some_inj.mp (hA.symm.trans hA')
          have hB' := statusOf_update_self
            ({ status := some .applying, updatedAt := some t,
               error := some none, appliedAt := none }) hA
          rw [hj] at hB
          have hb : b = .applying := by
            have := Option.some_inj.mp (hB.symm.trans hB')
            simpa using this
          unfold isEligibleForProcessing at helig
          rcases Bool.or_eq_true_iff.mp helig with he | he
          · rw [ha, hb, show next.status = ApplicationStatus.queued by simpa using he]
            decide
          · rw [ha, hb, show next.status = ApplicationStatus.failed by simpa using he]
            decide
        · rw [statusOf_update_ne _ hj] at hB
          exact absurd (Option.some_inj.mp (hA.symm.trans hB)) hne
  · -- processQueueFinishSuccess
    intro t j a b hA hB hne
    unfold processQueueFinishSuccess at hB
    cases hfl : s.inflight with
    | none =>
      rw [hfl] at hB
      exact absurd (Option.some_inj.mp (hA.symm.trans hB)) hne
    | some j₀ =>
      rw [hfl] at hB
      rcases (hI.busy j₀ hfl).2 with ⟨r₀, hr₀, hr₀j, hr₀s⟩
      by_cases hj : j = j₀
      · have hA' : statusOf s.queue j₀ = some .applying := by
          have := statusOf_eq_of_mem_nodup hI.nodup hr₀
          rw [hr₀j, hr₀s] at this
          exact this
        rw [hj] at hA
        have ha : a = .applying := Option.some_inj.mp (hA.symm.trans hA')
        have hB' := statusOf_update_self
          ({ status := some .applied, updatedAt := some t,
             error := some none, appliedAt := some t }) hA
        rw [hj] at hB
        have hb : b = .applied := by
          have := Option.some_inj.mp (hB.symm.trans hB')
          simpa using this
        rw [ha, hb]
        decide
      · rw [statusOf_update_ne _ hj] at hB
        exact absurd (Option.some_inj.mp (hA.symm.trans hB)) hne
  · -- processQueueFinishFailure
    intro t msg j a b hA hB hne
    unfold processQueueFinishFailure at hB
    cases hfl : s.inflight with
    | none =>
      rw [hfl] at hB
      exact absurd (Option.some_inj.mp (hA.symm.trans hB)) hne
    | some j₀ =>
      rw [hfl] at hB
      rcases (hI.busy j₀ hfl).2 with ⟨r₀, hr₀, hr₀j, hr₀s⟩
      by_cases hj : j = j₀
      · have hA' : statusOf s.queue j₀ = some .applying := by
          have := statusOf_eq_of_mem_nodup hI.nodup hr₀
          rw [hr₀j, hr₀s] at this
          exact this
        rw [hj] at hA
        have ha : a = .applying := Option.some_inj.mp (hA.symm.trans hA')
        have hB' := statusOf_update_self
          ({ status := some .failed, updatedAt := some t,
             error := some (some msg), appliedAt := none }) hA
        rw [hj] at hB
        have hb : b = .failed := by
          have := Option.some_inj.mp (hB.symm.trans hB')
          simpa using this
        rw [ha, hb]
        decide
      · rw [statusOf_update_ne _ hj] at hB
        exact absurd (Option.some_inj.mp (hA.symm.trans hB)) hne
  · -- handleRetry
    intro t jobId j a b hf hA hB hne
    unfold handleRetry at hB
    by_cases hj : j = jobId
    · rw [hj] at hA
      have ha : a = .failed := Option.some_inj.mp (hA.symm.trans hf)
      have hB' := statusOf_update_self
        ({ status := some .queued, updatedAt := some t,
           error := some none, appliedAt := none }) hA
      rw [hj] at hB
      have hb : b = .queued := by
        have := Option.some_inj.mp (hB.symm.trans hB')
        simpa using this
      rw [ha, hb]
      decide
    · rw [statusOf_update_ne _ hj] at hB
      exact absurd (Option.some_inj.mp (hA.symm.trans hB)) hne
  · -- enqueueApplication stores the record as queued
    intro r hq
    unfold enqueueApplication statusOf
    rw [find?_append_of_none]
    · simp [List.find?, hq]
    · apply List.find?_eq_none.mpr
      intro x hx
      have := (List.mem_filter.mp hx).2
      simp only [bne_iff_ne, ne_eq] at this
      simp [this]

/-- C1, witness: the amended transition property at the reachable state
`failedState`. -/
theorem claimC1_amended_witness : AmendedTransitionProperty failedState :=
  claimC1_amended failedState failedState_reachable

/-- C2: at every reachable state of the queue driver at most one record has
status `applying`, and a `processQueue` call while an attempt is already in
flight (`processingRef.current = true`) is a no-op that returns the state,
and in particular the queue, unchanged. -/
theorem claimC2 (s : QueueState) (h : Reachable s) :
    applyingCount s.queue ≤ 1 ∧
    (∀ force autoSubmit t, s.processing = true →
      processQueueBegin force autoSubmit t s = s) := by
  have hI := reachable_inv h
  constructor
  · cases hfl : s.inflight with
    | none =>
      have hz : applyingCount s.queue = 0 := by
        apply List.countP_eq_zero.mpr
        intro r hr hcon
        exact (hI.idle hfl).2 r hr (by simpa using hcon)
      omega
    | some j =>
      apply countP_applying_le_one hI.nodup
      intro r hr hs
      have h2 := hI.applying_inflight r hr hs
      rw [hfl] at h2
      exact (Option.some_inj.mp h2).symm
  · intro force autoSubmit t hproc
    unfold processQueueBegin
    rw [hproc]
    simp

/-- A reachable state with an attempt in flight: enqueue `rec0`, then begin
processing it. -/
def inflightState : QueueState :=
  processQueueBegin true true "t1" ⟨enqueueApplication [] rec0, false, none⟩

theorem inflightState_reachable : Reachable inflightState :=
  Reachable.step
    (Reachable.step Reachable.init
      (QueueStep.enqueue ⟨[], false, none⟩ rec0 rfl (by simp)))
    (QueueStep.beginStep _ true true "t1")

/-- C2, witness: the bound and the no-op law at the concrete reachable state
`inflightState`, which has one record in status `applying`. -/
theorem claimC2_witness :
    applyingCount inflightState.queue ≤ 1 ∧
    (∀ force autoSubmit t, inflightState.processing = true →
      processQueueBegin force autoSubmit t inflightState = inflightState) :=
  claimC2 inflightState inflightState_reachable

theorem countP_jobId_le_one {q : List ApplicationRecord} {j : String}
    (hN : (q.map (fun r => r.jobId)).Nodup) :
    q.countP (fun r => r.jobId == j) ≤ 1 := by
  induction q with
  | nil => simp
  | cons a rest ih =>
    simp only [List.map_cons, List.nodup_cons] at hN
    by_cases h : a.jobId = j
    · rw [List.countP_cons_of_pos _ _ (by simp [h])]
      have h0 : rest.countP (fun r => r.jobId == j) = 0 := by
        apply List.countP_eq_zero.mpr
        intro r hr hcon
        apply hN.1
        rw [h, ← show r.jobId = j by simpa using hcon]
        exact List.mem_map_of_mem _ hr
      omega
    · rw [List.countP_cons_of_neg _ _ (by simp [h])]
      exact ih hN.2

theorem length_filter_ne_add_countP (q : List ApplicationRecord) (j : String) :
    (q.filter (fun r => r.jobId != j)).length
      + q.countP (fun r => r.jobId == j) = q.length := by
  induction q with
  | nil => rfl
  | cons a rest ih =>
    by_cases h : a.jobId = j
    · rw [List.filter_cons_of_neg (by simp [h]),
        List.countP_cons_of_pos _ _ (by simp [h])]
      simp only [List.length_cons]
      omega
    · rw [List.filter_cons_of_pos (by simp [h]),
        List.countP_cons_of_neg _ _ (by simp [h])]
      simp only [List.length_cons]
      omega

/-- C5: under the spec invariant that `jobId`s are unique, enqueueing a record
whose `jobId` is already present replaces the existing entry: queue length is
unchanged, exactly one entry with that `jobId` remains, and every entry with
that `jobId` equals the newly enqueued input (last-write-wins, no duplicate
appended). -/
theorem claimC5 (queue : List ApplicationRecord) (record : ApplicationRecord)
    (hnodup : (queue.map (fun r => r.jobId)).Nodup)
    (hmem : ∃ r ∈ queue, r.jobId = record.jobId) :
    (enqueueApplication queue record).length = queue.length ∧
    (enqueueApplication queue record).countP
      (fun r => r.jobId == record.jobId) = 1 ∧
    ∀ r ∈ enqueueApplication queue record, r.jobId = record.jobId → r = record := by
  have hcount : queue.countP (fun r => r.jobId == record.jobId) = 1 := by
    have hle := countP_jobId_le_one (j := record.jobId) hnodup
    have hpos : 0 < queue.countP (fun r => r.jobId == record.jobId) := by
      apply List.countP_pos_iff.mpr
      rcases hmem with ⟨r, hr, hj⟩
      exact ⟨r, hr, by simp [hj]⟩
    omega
  have hflen := length_filter_ne_add_countP queue record.jobId
  refine ⟨?_, ?_, ?_⟩
  · unfold enqueueApplication
    rw [List.length_append, List.length_singleton]
    omega
  · unfold enqueueApplication
    rw [List.countP_append]
    have h0 : (queue.filter (fun r => r.jobId != record.jobId)).countP
        (fun r => r.jobId == record.jobId) = 0 := by
      apply List.countP_eq_zero.mpr
      intro r hr hcon
      have := (List.mem_filter.mp hr).2
      simp only [bne_iff_ne, ne_eq] at this
      exact this (by simpa using hcon)
    rw [h0]
    simp
  · intro r hr hj
    rcases List.mem_append.mp hr with h1 | h1
    · have := (List.mem_filter.mp h1).2
      simp only [bne_iff_ne, ne_eq] at this
      exact absurd hj this
    · exact List.mem_singleton.mp h1

/-- A second queued record with a distinct `jobId`. -/
def recB : ApplicationRecord :=
  { jobId := "job-2", job := "Beta Engineer", profile := "profile-1",
    status := .queued, updatedAt := "t0", error := none, appliedAt := none }

/-- A record re-enqueueing `jobId` "job-1" with fresh fields. -/
def rec0v2 : ApplicationRecord :=
  { jobId := "job-1", job := "Acme Engineer", profile := "profile-2",
    status := .queued, updatedAt := "t5", error := none, appliedAt := none }

/-- C5, witness: re-enqueueing "job-1" into the two-record queue keeps the
length at 2, leaves one "job-1" entry, and that entry carries the new
fields. -/
theorem claimC5_witness :
    (enqueueApplication [rec0, recB] rec0v2).length = [rec0, recB].length ∧
    (enqueueApplication [rec0, recB] rec0v2).countP
      (fun r => r.jobId == rec0v2.jobId) = 1 ∧
    ∀ r ∈ enqueueApplication [rec0, recB] rec0v2,
      r.jobId = rec0v2.jobId → r = rec0v2 :=
  claimC5 [rec0, recB] rec0v2 (by decide) ⟨rec0, by decide, by decide⟩

/-- C10: `enqueueApplication` filters the old entry out and appends the new
record, so a re-enqueued record lands in the last position; since
`getNextQueuedApplication` returns the first eligible record in collection
order, the first eligible record among the remaining entries — not the
re-enqueued one — is drained next. -/
theorem claimC10 (queue : List ApplicationRecord) (record x : ApplicationRecord)
    (hfind : (queue.filter (fun r => r.jobId != record.jobId)).find?
      isEligibleForProcessing = some x) :
    (enqueueApplication queue record).getLast? = some record ∧
    getNextQueuedApplication (enqueueApplication queue record) = some x ∧
    getNextQueuedApplication (enqueueApplication queue record) ≠ some record := by
  have hnext : getNextQueuedApplication (enqueueApplication queue record) = some x := by
    unfold enqueueApplication getNextQueuedApplication
    exact find?_append_of_some _ hfind
  refine ⟨?_, hnext, ?_⟩
  · unfold enqueueApplication
    simp
  · rw [hnext]
    intro hcon
    have hx : x ∈ queue.filter (fun r => r.jobId != record.jobId) :=
      List.mem_of_find?_eq_some hfind
    have := (List.mem_filter.mp hx).2
    simp only [bne_iff_ne, ne_eq] at this
    exact this (by rw [Option.some_inj.mp hcon])

/-- C10, witness: with "job-1" and "job-2" queued, re-enqueueing "job-1"
places it last and the next drained record becomes "job-2". -/
theorem claimC10_witness :
    (enqueueApplication [rec0, recB] rec0v2).getLast? = some rec0v2 ∧
    getNextQueuedApplication (enqueueApplication [rec0, recB] rec0v2) = some recB ∧
    getNextQueuedApplication (enqueueApplication [rec0, recB] rec0v2) ≠ some rec0v2 :=
  claimC10 [rec0, recB] rec0v2 recB (by decide)

/-!
The form-filling engine of `src/scripts/applyAshby.ts` (the second, current
revision of the file).  The regular expressions used there are alternations of
literal fragments separated by `.*`, always with the `i` flag; they are
embedded as lists of literal sequences matched over lower-cased text.
-/

/-- Whether the first list is a prefix of the second. -/
def charsStartWith : List Char → List Char → Bool
  | [], _ => true
  | _ :: _, [] => false
  | a :: as, b :: bs => a == b && charsStartWith as bs

/-- The suffix following the first occurrence of `pat` in `s`, if any. -/
def charsAfterMatch (pat : List Char) : List Char → Option (List Char)
  | [] => if pat.isEmpty then some [] else none
  | a :: rest =>
    if charsStartWith pat (a :: rest) then some (List.drop pat.length (a :: rest))
    else charsAfterMatch pat rest

/-- Matches `p₁.*p₂.*…`: every literal occurs, in order, with arbitrary gaps.
Taking the earliest occurrence of each literal is complete for such
patterns. -/
def charsSeqMatch : List Char → List (List Char) → Bool
  | _, [] => true
  | s, pat :: rest =>
    match charsAfterMatch pat s with
    | some s2 => charsSeqMatch s2 rest
    | none => false

/-- ASCII lower-casing of a character list, modelling `toLowerCase()` on the
labels these sources handle. -/
def lowerChars (s : List Char) : List Char := s.map Char.toLower

/-- Case-insensitive test of a regex `a₁.*a₂…|b₁.*b₂…|…` given as the list of
its alternatives. -/
def imatch (label : String) (alts : List (List String)) : Bool :=
  alts.any (fun alt => charsSeqMatch (lowerChars label.data) (alt.map String.data))

/-- Case-insensitive substring test, modelling `label.toLowerCase().includes(pat)`
for a lower-case literal `pat`. -/
def lcontains (label pat : String) : Bool :=
  (charsAfterMatch pat.data (lowerChars label.data)).isSome

/-- Case-sensitive substring test, modelling `s.includes(pat)`. -/
def scontains (s pat : String) : Bool :=
  (charsAfterMatch pat.data s.data).isSome

/-- Whether `handleCheckbox` checks the box or leaves it alone. -/
inductive CheckboxAction where
  | check
  | skip
deriving DecidableEq, Repr

/-- Pattern of `/terms|privacy|agree|consent|acknowledge/i`. -/
def termsPatterns : List (List String) :=
  [["terms"], ["privacy"], ["agree"], ["consent"], ["acknowledge"]]

/-- Pattern of the work-authorization checkbox regex in `handleCheckbox`. -/
def workAuthCheckboxPatterns : List (List String) :=
  [["authorized", "work"], ["work", "authorized"], ["lawfully", "work"],
   ["work", "lawfully"], ["work", "united", "states"],
   ["us", "work", "authorization"]]

/-- Pattern of the office/in-person requirement regex in `handleCheckbox`. -/
def officePolicyPatterns : List (List String) :=
  [["office", "requirements"], ["in", "person"], ["anchor", "days"],
   ["understand", "policy"], ["read", "understand"], ["confirm", "read"],
   ["office", "policy"], ["in", "office"], ["presence", "office"]]

/-- Pattern of the relocation-confirmation regex in `handleCheckbox`. -/
def relocationPatterns : List (List String) :=
  [["willing", "relocate"], ["relocate", "willing"], ["confirm", "relocate"],
   ["relocate", "role"], ["role", "relocate"],
   ["new", "york", "san", "francisco"]]

/-- Pattern of `/undergraduate|bachelors|bachelor/i`. -/
def undergradPatterns : List (List String) :=
  [["undergraduate"], ["bachelors"], ["bachelor"]]

/-- Pattern of `/master|phd|mba|doctorate|graduate/i` (higher education levels
skipped for the high-school profile). -/
def gradSkipPatterns : List (List String) :=
  [["master"], ["phd"], ["mba"], ["doctorate"], ["graduate"]]

/-- Pattern of `/infra|infrastructure|product|engineering/i`. -/
def roleInterestPatterns : List (List String) :=
  [["infra"], ["infrastructure"], ["product"], ["engineering"]]

/-- `handleCheckbox` (applyAshby.ts lines 1632-1690): the label-driven cascade
deciding whether a checkbox is checked during the main fill pass.  The
function receives only the label — required-ness and current checked state
play no part in the decision. -/
def handleCheckbox (label : String) : CheckboxAction :=
  if imatch label termsPatterns then .check
  else if imatch label workAuthCheckboxPatterns then .check
  else if imatch label officePolicyPatterns then .check
  else if imatch label relocationPatterns then .check
  else if imatch label undergradPatterns then .check
  else if imatch label gradSkipPatterns then .skip
  else if imatch label roleInterestPatterns then .check
  else if lcontains label "linkedin" || lcontains label "job board"
      || lcontains label "google" then .check
  else .skip

/-- The affirmative-intent patterns of `handleCheckbox`: the disjunction of
every pattern group whose branch checks the box. -/
def isAffirmativeCheckboxLabel (label : String) : Bool :=
  imatch label termsPatterns || imatch label workAuthCheckboxPatterns
    || imatch label officePolicyPatterns || imatch label relocationPatterns
    || imatch label undergradPatterns || imatch label roleInterestPatterns
    || lcontains label "linkedin" || lcontains label "job board"
    || lcontains label "google"

/-- The corrective-sweep behaviour of `retryMissingFields` (applyAshby.ts
lines 2197-2203, Step 0 of the DOM sweep, and again lines 2379-2437, Step 3):
every unchecked checkbox is set to checked, regardless of its label.  The
resulting checked state of a checkbox with the given label and prior state. -/
def retrySweepCheckboxChecked (_label : String) (checked : Bool) : Bool :=
  if !checked then true else checked

/-- C4: behaviour of the code at the claim.  During the main pass
`handleCheckbox` checks the terms-of-service box and skips the Master's
newsletter box, but during a corrective retry pass `retryMissingFields`
checks the (unchecked, non-affirmative) Master's newsletter box anyway —
contradicting the claim that no pass ever checks a box merely because it is
unchecked. -/
theorem claimC4_code_behavior :
    handleCheckbox "I agree to the Terms of Service" = .check ∧
    handleCheckbox "Subscribe to Master\x27s program newsletter" = .skip ∧
    isAffirmativeCheckboxLabel "Subscribe to Master\x27s program newsletter" = false ∧
    retrySweepCheckboxChecked "Subscribe to Master\x27s program newsletter" false = true := by
  exact ⟨by decide, by decide, by decide, rfl⟩

/-- The main fill pass does respect the affirmative-pattern discipline:
whenever `handleCheckbox` checks a box, its label matches one of the
affirmative-intent pattern groups.  (The violation of C4 lies solely in the
corrective sweep.) -/
theorem handleCheckbox_only_affirmative (label : String)
    (h : handleCheckbox label = .check) :
    isAffirmativeCheckboxLabel label = true := by
  unfold handleCheckbox at h
  unfold isAffirmativeCheckboxLabel
  split at h
  · simp_all
  · split at h
    · simp_all
    · split at h
      · simp_all
      · split at h
        · simp_all
        · split at h
          · simp_all
          · split at h
            · cases h
            · split at h
              · simp_all
              · split at h
                · simp_all
                · cases h

/-- Witness for `handleCheckbox_only_affirmative` at the terms-of-service
label. -/
theorem handleCheckbox_only_affirmative_witness :
    isAffirmativeCheckboxLabel "I agree to the Terms of Service" = true :=
  handleCheckbox_only_affirmative "I agree to the Terms of Service" (by decide)

/-- The `profile` argument of `applyAshby` (`ApplyPayload['profile']`). -/
structure ApplyProfile where
  firstName : String
  lastName : String
  email : String
  phone : Option String
  location : Option String
  linkedin : Option String
  website : Option String
  github : Option String
  workAuth : Option String
  coverLetter : Option String
  willingToRelocate : Option Bool
  understandsAnchorDays : Option Bool
deriving DecidableEq, Repr

/-- JS truthiness fallback `a || b` on an optional string: `b` when `a` is
absent or empty. -/
def orFalsy (a : Option String) (b : String) : String :=
  match a with
  | some s => if s.isEmpty then b else s
  | none => b

/-- `draftAnswer` (applyAshby.ts lines 1942-2034): the deterministic
pattern-to-canned-answer table, transcribed branch by branch in source
order. -/
def draftAnswer (label : String) (profile : ApplyProfile) : String :=
  if imatch label [["cover", "letter"], ["why", "join"], ["join", "team"],
      ["tell us why"]] then
    "I\x27m excited to join your team because I\x27m passionate about building exceptional products that solve real problems. I\x27m drawn to your company\x27s commitment to innovation and quality, and I believe my technical expertise and collaborative approach would be a valuable addition to your team."
  else if imatch label [["why", "work"], ["motivation"], ["interest"],
      ["why", "company"], ["why", "role"], ["about you"]] then
    "I\x27m genuinely excited about this opportunity because it aligns perfectly with my career goals and technical interests. I\x27m particularly drawn to the company\x27s innovative approach and the chance to contribute to meaningful projects while continuing to grow my skills in a collaborative environment."
  else if imatch label [["what", "work on"], ["features", "implement"],
      ["first month"], ["what", "build"]] then
    "In my first month, I\x27d focus on understanding the codebase and user needs, then contribute to key features like improving user experience, optimizing performance, and building robust, scalable components. I\x27m particularly interested in working on user-facing features that directly impact product usability and developer experience."
  else if imatch label [["pm hat"], ["product", "problem"],
      ["product", "management"], ["complex", "product"]] then
    "I once led the redesign of a complex user workflow by conducting user research, identifying pain points, and collaborating with design and engineering teams to create a more intuitive solution. I prioritized features based on user feedback and business impact, resulting in a 40% improvement in user satisfaction and reduced support tickets."
  else if imatch label [["extremely", "good"], ["what", "teach"], ["strengths"],
      ["expertise"], ["skills", "bring"]] then
    "I excel at building scalable, maintainable software solutions and have deep expertise in modern web technologies. I could teach the team best practices in React architecture, performance optimization, and collaborative development workflows. I\x27m also strong at translating complex technical concepts into clear, actionable plans for cross-functional teams."
  else if imatch label [["salary"], ["compensation"], ["expected", "pay"],
      ["pay", "range"]] then
    "I am open to discussing a competitive compensation package that aligns with market standards for this role and my experience level."
  else if imatch label [["start", "date"], ["availability"], ["when", "start"],
      ["notice", "period"], ["expected", "notice"]] then
    "I am available to start within 2-4 weeks, with flexibility to accommodate the team\x27s needs and project timelines."
  else if imatch label [["location"], ["remote"], ["where", "located"],
      ["timezone"], ["region"]] then
    orFalsy profile.location
      "I am flexible with location and comfortable working remotely or in-office as needed."
  else if imatch label [["age", "18"], ["over", "18"], ["18", "years"]] then
    "Yes"
  else if imatch label [["work", "auth"], ["visa"], ["sponsor"],
      ["legal", "work"]] then
    orFalsy profile.workAuth
      "I am authorized to work and do not require sponsorship."
  else if imatch label [["passport", "country"], ["country", "passport"],
      ["what", "country"], ["country", "based"]] then
    orFalsy profile.location "United States"
  else if imatch label [["country", "residence"], ["residence", "country"],
      ["based", "country"]] then
    orFalsy profile.location "United States"
  else if imatch label [["hear", "about"], ["how", "find"], ["source"]] then
    "Through online job boards and professional networks"
  else if imatch label [["experience"], ["background"], ["skills"],
      ["previous", "work"]] then
    "I bring a strong technical background with experience in software development and a passion for building innovative solutions. I\x27m always eager to learn new technologies and contribute to team success."
  else if imatch label [["portfolio"], ["projects"], ["work", "samples"]] then
    orFalsy profile.website
      "I have various projects showcased on my portfolio website and GitHub profile."
  else if imatch label [["additional", "comment"], ["anything", "else"],
      ["other", "information"]] then
    "Thank you for considering my application. I look forward to discussing how I can contribute to the team."
  else if imatch label [["cover", "letter"], ["letter", "cover"]] then
    orFalsy profile.coverLetter
      "I am excited to apply for this position as it represents an excellent opportunity to contribute my skills while growing professionally. I am particularly interested in the innovative work being done and would love to be part of a team that values collaboration and continuous learning."
  else if lcontains label "type here" || lcontains label "tell us"
      || lcontains label "describe" then
    "I am excited about this opportunity and believe my background and enthusiasm make me a strong candidate for this role."
  else
    ""

/-- How the text-field branch of `autoAnswerFollowUps` (applyAshby.ts lines
1448-1465) produces an answer for an empty text field: an inline education
canned value, a call to the Answer Synthesis Oracle (`generateAIAnswer`) when
the label is longer than 10 characters, or the local `draftAnswer` table. -/
inductive AnswerRoute where
  | canned (answer : String)
  | oracle
  | draft
deriving DecidableEq, Repr

/-- The routing decision of `autoAnswerFollowUps` lines 1448-1465. -/
def textAnswerRoute (label : String) : AnswerRoute :=
  if imatch label [["school"]] then
    .canned "Manhattan Center for Science and Mathematics"
  else if imatch label [["graduation"], ["grad", "date"], ["pick", "date"]]
      || lcontains label "date" then
    .canned "June 2025"
  else if imatch label [["degree", "type"], ["type", "degree"]] then
    .canned "High School Diploma"
  else if label.length > 10 then
    .oracle
  else
    .draft

/-- The compensation-deferral sentence of the canned table. -/
def salaryDeferralAnswer : String :=
  "I am open to discussing a competitive compensation package that aligns with market standards for this role and my experience level."

/-- C6, counterexample: the label "Expected salary range" is longer than 10
characters and matches none of the education special cases, so the resolver
routes it to the Answer Synthesis Oracle rather than answering it from the
canned table. -/
theorem claimC6_counterexample :
    textAnswerRoute "Expected salary range" = .oracle ∧
    AnswerRoute.oracle ≠ AnswerRoute.draft := by
  exact ⟨by decide, by decide⟩

/-- C6, amended: the canned table `draftAnswer` is a pure function of the
label and profile — identical inputs yield the identical literal answer — and
it maps "Expected salary range" to the literal compensation-deferral sentence
for every profile; but in the fill flow the label, being longer than 10
characters, is first sent to the Oracle, the canned answer serving only as
the fallback when the Oracle fails or returns empty. -/
theorem claimC6_amended (profile : ApplyProfile) :
    draftAnswer "Expected salary range" profile = salaryDeferralAnswer ∧
    textAnswerRoute "Expected salary range" = .oracle := by
  exact ⟨rfl, rfl⟩

/-- Outcome of one call to the Answer Synthesis Oracle (the Groq chat
completion in `generateAIAnswer`): the request may throw, or respond with
`completion.choices[0]?.message?.content` — possibly missing or empty. -/
inductive OracleOutcome where
  | threw (message : String)
  | responded (content : Option String)
deriving DecidableEq, Repr

/-- The failure modes the spec requires to fall back: a thrown error, a
missing/malformed content, or content that trims to the empty string. -/
def oracleFailed : OracleOutcome → Bool
  | .threw _ => true
  | .responded none => true
  | .responded (some s) => s.trim.isEmpty

/-- `generateAIAnswer` (applyAshby.ts lines 1496-1556):
`const answer = completion.choices[0]?.message?.content?.trim();
return answer || draftAnswer(question, profile);` inside a try/catch whose
catch also returns `draftAnswer(question, profile)`. -/
def generateAIAnswer (outcome : OracleOutcome) (question : String)
    (profile : ApplyProfile) : String :=
  match outcome with
  | .threw _ => draftAnswer question profile
  | .responded content =>
    match content.map String.trim with
    | none => draftAnswer question profile
    | some answer =>
      if answer.isEmpty then draftAnswer question profile else answer

/-- C9: every Oracle failure — thrown error, missing content, or empty
response — makes answer generation return the local canned-table answer; the
function is total and returns a plain string, so the failure is never
propagated as a failure of the attempt. -/
theorem claimC9 (outcome : OracleOutcome) (question : String)
    (profile : ApplyProfile) (h : oracleFailed outcome = true) :
    generateAIAnswer outcome question profile = draftAnswer question profile := by
  cases outcome with
  | threw m => rfl
  | responded content =>
    cases content with
    | none => rfl
    | some s =>
      unfold oracleFailed at h
      unfold generateAIAnswer
      simp only [Option.map_some']
      rw [if_pos h]

/-- A concrete profile for witnesses. -/
def profile0 : ApplyProfile :=
  { firstName := "Ada", lastName := "Lovelace", email := "ada@example.com",
    phone := some "(646) 555-0199", location := some "New York, NY, USA",
    linkedin := none, website := none, github := none,
    workAuth := some "Yes, I am authorized to work in the United States",
    coverLetter := none, willingToRelocate := some true,
    understandsAnchorDays := some true }

/-- C9, witness: a thrown Oracle error on the salary question falls back to
the canned compensation-deferral answer. -/
theorem claimC9_witness :
    generateAIAnswer (.threw "quota exceeded") "Expected salary range" profile0
      = draftAnswer "Expected salary range" profile0 :=
  claimC9 (.threw "quota exceeded") "Expected salary range" profile0 rfl

/-- `ApplyResult` of applyAshby.ts:
`{ ok: true, successText, screenshotPath } | { ok: false, error, screenshotPath? }`. -/
inductive ApplyResult where
  | ok (successText : Option String) (screenshotPath : String)
  | err (error : String) (screenshotPath : Option String)
deriving DecidableEq, Repr

/-- `extractMissingFieldSuggestions` (applyAshby.ts lines 2539-2562):
case-sensitive keyword matching on the validation-error text. -/
def extractMissingFieldSuggestions (validationError : String) : List String :=
  (if scontains validationError "Phone" then ["phone number"] else []) ++
  (if scontains validationError "School" then ["education (school name)"] else []) ++
  (if scontains validationError "Graduation Date" then ["graduation date"] else []) ++
  (if scontains validationError "Degree Type" then
    ["degree type (Bachelor\x27s, Master\x27s, etc.)"] else []) ++
  (if scontains validationError "work lawfully"
      || scontains validationError "authorized to work" then
    ["work authorization status"] else []) ++
  (if scontains validationError "relocate"
      || scontains validationError "relocation" then
    ["willingness to relocate"] else [])

/-- The aggregated failure message thrown at applyAshby.ts lines 1038-1043. -/
def retryFailureMessage (retryCount : Nat) (validationError : String) : String :=
  let suggestions := extractMissingFieldSuggestions validationError
  if suggestions.length > 0 then
    "Validation failed after " ++ toString retryCount ++
      " retry attempts. Please add the following to your profile: " ++
      String.intercalate ", " suggestions ++ ". Full error: " ++ validationError
  else
    "Validation failed after " ++ toString retryCount ++ " retry attempts: " ++
      validationError

/-- Bookkeeping of one run of the validation-retry loop: outer iterations
executed, corrective fix passes executed, and the validation error left when
the loop stopped (none on a clean submission). -/
structure RetryTrace where
  outerAttempts : Nat
  innerPasses : Nat
  finalError : Option String
deriving DecidableEq, Repr

/-- The `while (validationError && retryCount < maxRetries)` loop of
`applyAshby` (lines 991-1031).  `findErrors k` is the result of
`findValidationErrors` after the k-th submission (`k = 0` is the check after
the initial submit).  Each iteration runs the inner
`for (fixAttempt = 1; fixAttempt <= 3; ...)` corrective loop — exactly 3
passes — then resubmits and re-checks; `fuel = maxRetries - retryCount`
mirrors the loop condition. -/
def retryLoopGo (findErrors : Nat → Option String) :
    Nat → Nat → String → RetryTrace
  | 0, _, e => { outerAttempts := 0, innerPasses := 0, finalError := some e }
  | fuel + 1, retryCount, _ =>
    match findErrors (retryCount + 1) with
    | none => { outerAttempts := 1, innerPasses := 3, finalError := none }
    | some e2 =>
      let t := retryLoopGo findErrors fuel (retryCount + 1) e2
      { outerAttempts := t.outerAttempts + 1, innerPasses := t.innerPasses + 3,
        finalError := t.finalError }

/-- The whole post-submission validation phase (applyAshby.ts lines 985-1031):
check once after the initial submit, then loop with `maxRetries = 5`. -/
def submissionRetryLoop (findErrors : Nat → Option String) : RetryTrace :=
  match findErrors 0 with
  | none => { outerAttempts := 0, innerPasses := 0, finalError := none }
  | some e => retryLoopGo findErrors 5 0 e

/-- The attempt outcome after the validation phase (applyAshby.ts lines
1020-1050 plus the catch handler): a left-over validation error becomes a
thrown `Error(errorMessage)`, caught and returned as `{ ok: false, ... }`
with a failure screenshot; otherwise the attempt returns `{ ok: true }`. -/
def applyResultAfterSubmit (findErrors : Nat → Option String)
    (successText : Option String) (shot failShot : String) : ApplyResult :=
  let t := submissionRetryLoop findErrors
  match t.finalError with
  | some e => .err (retryFailureMessage t.outerAttempts e) (some failShot)
  | none => .ok successText shot

theorem retryLoopGo_outer_le (findErrors : Nat → Option String)
    (fuel retryCount : Nat) (e : String) :
    (retryLoopGo findErrors fuel retryCount e).outerAttempts ≤ fuel := by
  induction fuel generalizing retryCount e with
  | zero => simp [retryLoopGo]
  | succ n ih =>
    unfold retryLoopGo
    cases findErrors (retryCount + 1) with
    | none => simp
    | some e2 =>
      simp only
      have := ih (retryCount + 1) e2
      omega

theorem retryLoopGo_inner (findErrors : Nat → Option String)
    (fuel retryCount : Nat) (e : String) :
    (retryLoopGo findErrors fuel retryCount e).innerPasses =
      3 * (retryLoopGo findErrors fuel retryCount e).outerAttempts := by
  induction fuel generalizing retryCount e with
  | zero => simp [retryLoopGo]
  | succ n ih =>
    unfold retryLoopGo
    cases findErrors (retryCount + 1) with
    | none => simp
    | some e2 =>
      simp only
      rw [ih (retryCount + 1) e2]
      ring

theorem retryLoopGo_exhausted (findErrors : Nat → Option String)
    (fuel retryCount : Nat) (e : String) :
    (∀ e', (retryLoopGo findErrors fuel retryCount e).finalError = some e' →
      (retryLoopGo findErrors fuel retryCount e).outerAttempts = fuel) := by
  induction fuel generalizing retryCount e with
  | zero => simp [retryLoopGo]
  | succ n ih =>
    intro e' h
    unfold retryLoopGo at h ⊢
    cases hf : findErrors (retryCount + 1) with
    | none =>
      rw [hf] at h
      simp at h
    | some e2 =>
      rw [hf] at h
      dsimp only at h ⊢
      rw [ih (retryCount + 1) e2 e' h]

/-- C3: the validation-retry loop terminates with bounded work for every
sequence of detected validation errors: at most 5 outer submit attempts, each
comprising exactly 3 corrective passes (hence at most 15 in total), and when
a validation error survives the bound the attempt returns a structured
failure result rather than looping further. -/
theorem claimC3 (findErrors : Nat → Option String) (successText : Option String)
    (shot failShot : String) :
    (submissionRetryLoop findErrors).outerAttempts ≤ 5 ∧
    (submissionRetryLoop findErrors).innerPasses =
      3 * (submissionRetryLoop findErrors).outerAttempts ∧
    (submissionRetryLoop findErrors).innerPasses ≤ 15 ∧
    (∀ e, (submissionRetryLoop findErrors).finalError = some e →
      (submissionRetryLoop findErrors).outerAttempts = 5 ∧
      applyResultAfterSubmit findErrors successText shot failShot =
        .err (retryFailureMessage 5 e) (some failShot)) := by
  have houter : (submissionRetryLoop findErrors).outerAttempts ≤ 5 := by
    unfold submissionRetryLoop
    cases findErrors 0 with
    | none => simp
    | some e => exact retryLoopGo_outer_le findErrors 5 0 e
  have hinner : (submissionRetryLoop findErrors).innerPasses =
      3 * (submissionRetryLoop findErrors).outerAttempts := by
    unfold submissionRetryLoop
    cases findErrors 0 with
    | none => simp
    | some e => exact retryLoopGo_inner findErrors 5 0 e
  refine ⟨houter, hinner, by omega, ?_⟩
  intro e he
  have hfive : (submissionRetryLoop findErrors).outerAttempts = 5 := by
    unfold submissionRetryLoop at he ⊢
    cases hf : findErrors 0 with
    | none =>
      rw [hf] at he
      cases he
    | some e0 =>
      rw [hf] at he
      exact retryLoopGo_exhausted findErrors 5 0 e0 e he
  refine ⟨hfive, ?_⟩
  unfold applyResultAfterSubmit
  simp only [he, hfive]

/-- C3, witness: a validation error that never clears exhausts the 5 retries,
runs 15 corrective passes, and yields the structured failure result. -/
theorem claimC3_witness :
    (submissionRetryLoop (fun _ => some "required field")).outerAttempts = 5 ∧
    applyResultAfterSubmit (fun _ => some "required field") none
        "ashby.png" "ashby-fail.png" =
      .err (retryFailureMessage 5 "required field") (some "ashby-fail.png") :=
  (claimC3 (fun _ => some "required field") none "ashby.png" "ashby-fail.png").2.2.2
    "required field" rfl

/-- The externally visible actions of the opening phase of an attempt
(`applyAshby`, lines 884-934, and `uploadByLikelyLabel`, lines 1104-1159), in
program order. -/
inductive AttemptEvent where
  | navigateToJob
  | activateApply
  | waitForForm
  | fillBasicFields
  | resolveResumePath
  | setResumeFile
  | continueAttempt
deriving DecidableEq, Repr

/-- The error message of the throw at applyAshby.ts line 1108. -/
def fileNotFoundMessage (absPath : String) : String :=
  "Resume file not found at " ++ absPath

/-- The opening phase of `applyAshby` (lines 884-934): navigate to the job
page, activate the apply control, wait for the form (a file input, upload
button or form container), fill the basic identity fields, then call
`uploadByLikelyLabel`, whose first statements resolve the resume path and
throw when `fs.existsSync(absPath)` is false — before any
`setInputFiles`/file-chooser interaction.  The throw is caught by the
attempt's catch handler, which captures a failure screenshot and returns
`{ ok: false, error: message }`.  `restOfAttempt` stands for the outcome of
everything after a successful upload. -/
def applyAshbyAttempt (resumeExists : Bool) (absPath : String)
    (restOfAttempt : ApplyResult) (failShot : String) :
    List AttemptEvent × ApplyResult :=
  let opening : List AttemptEvent :=
    [.navigateToJob, .activateApply, .waitForForm, .fillBasicFields,
     .resolveResumePath]
  if resumeExists then
    (opening ++ [.setResumeFile, .continueAttempt], restOfAttempt)
  else
    (opening, .err (fileNotFoundMessage absPath) (some failShot))

/-- C7, counterexample: with a missing resume file the attempt does fail with
the structured file-not-found error, but only after the browser has already
navigated to the job page and waited for the apply form (the upload step) —
the navigation events precede the failure, contradicting the claim that no
navigation to the upload step is attempted. -/
theorem claimC7_counterexample :
    (applyAshbyAttempt false "/tmp/resume.pdf" (.ok none "s.png") "fail.png").2
      = .err "Resume file not found at /tmp/resume.pdf" (some "fail.png") ∧
    AttemptEvent.navigateToJob
      ∈ (applyAshbyAttempt false "/tmp/resume.pdf" (.ok none "s.png") "fail.png").1 ∧
    AttemptEvent.waitForForm
      ∈ (applyAshbyAttempt false "/tmp/resume.pdf" (.ok none "s.png") "fail.png").1 := by
  exact ⟨by decide, by decide, by decide⟩

/-- C7, amended: when the resolved resume path does not exist the attempt
fails with a structured `{ ok: false }` result whose message names the
missing file, and no upload action is ever performed — the existence check
precedes every `setInputFiles` call and the rest of the attempt is
abandoned; the browser has, however, already navigated to the apply form
before the check runs. -/
theorem claimC7_amended (absPath : String) (restOfAttempt : ApplyResult)
    (failShot : String) :
    (applyAshbyAttempt false absPath restOfAttempt failShot).2
      = .err (fileNotFoundMessage absPath) (some failShot) ∧
    AttemptEvent.setResumeFile
      ∉ (applyAshbyAttempt false absPath restOfAttempt failShot).1 ∧
    AttemptEvent.continueAttempt
      ∉ (applyAshbyAttempt false absPath restOfAttempt failShot).1 ∧
    fileNotFoundMessage absPath = "Resume file not found at " ++ absPath := by
  refine ⟨rfl, ?_, ?_, rfl⟩ <;> simp [applyAshbyAttempt]

/-- A text control of the generic fill pass, with its resolved label and
current value. -/
structure FormTextField where
  label : String
  value : String
deriving DecidableEq, Repr

/-- The two modes of `ApplyPayload`. -/
inductive ApplyMode where
  | auto
  | confirm
deriving DecidableEq, Repr

/-- `trim()` over a character list: strip leading and trailing whitespace. -/
def trimChars (s : List Char) : List Char :=
  ((s.dropWhile Char.isWhitespace).reverse.dropWhile Char.isWhitespace).reverse

/-- The text-field branch of `autoAnswerFollowUps` (applyAshby.ts lines
1437-1484): in confirm mode text fields are not touched at all; otherwise a
field whose current value has non-blank content
(`currentValue && currentValue.trim().length > 0`) is skipped, and an empty
field is filled with the first 500 characters (`answer.slice(0, 500)`) of the
computed answer when that answer is non-empty.  `computeAnswer` stands for
the whole answer pipeline (education canned values, Oracle, `draftAnswer`). -/
def resolveTextField (mode : ApplyMode) (computeAnswer : String → String)
    (f : FormTextField) : FormTextField :=
  match mode with
  | .confirm => f
  | .auto =>
    if 0 < (trimChars f.value.data).length then f
    else
      let answer := computeAnswer f.label
      if answer.isEmpty then f
      else { label := f.label, value := answer.take 500 }

/-- C8: the Answer Resolver never overwrites a field whose current value is
non-empty — the field is returned unchanged, so a second run over an
already-filled form (even with a different Oracle) leaves it unchanged
(idempotence on filled fields). -/
theorem claimC8 (mode : ApplyMode) (answer1 answer2 : String → String)
    (f : FormTextField) (h : 0 < (trimChars f.value.data).length) :
    resolveTextField mode answer1 f = f ∧
    resolveTextField mode answer2 (resolveTextField mode answer1 f)
      = resolveTextField mode answer1 f := by
  have h1 : ∀ g : String → String, resolveTextField mode g f = f := by
    intro g
    cases mode with
    | auto =>
      unfold resolveTextField
      rw [if_pos h]
    | confirm => rfl
  exact ⟨h1 answer1, by rw [h1 answer1, h1 answer2]⟩

/-- C8, witness: a filled "Why this role?" field is preserved by repeated
resolver runs, whatever answers the pipeline would produce. -/
theorem claimC8_witness :
    resolveTextField .auto (fun _ => "generated answer")
        ⟨"Why this role?", "Because I love the product."⟩
      = ⟨"Why this role?", "Because I love the product."⟩ ∧
    resolveTextField .auto (fun _ => "another answer")
        (resolveTextField .auto (fun _ => "generated answer")
          ⟨"Why this role?", "Because I love the product."⟩)
      = resolveTextField .auto (fun _ => "generated answer")
          ⟨"Why this role?", "Because I love the product."⟩ :=
  claimC8 .auto (fun _ => "generated answer") (fun _ => "another answer")
    ⟨"Why this role?", "Because I love the product."⟩ (by decide)

end SwipeHire
